import Mathlib

/-!
# Verification of the rtsched blocking-bound analysis

Shallow embedding of the core of the `rtsched` crate: the request/resource
model (`rsrc.rs`), the bound algebra and greedy blocking-bound operator
(`sharing.rs`), the protocol analyzers (`proto/fmlp.rs`, `proto/olpf.rs`,
`proto/omlp.rs`) and the schedulability test (`bound.rs`).

Machine integers: the crate's `Time` is `u64` and counts are `usize`; both
are modelled as `ℕ`.  The one place the source explicitly checks for
overflow (`System::add_rsrc` uses `checked_add`) is modelled with an
explicit `2 ^ 64` bound; index assertions (`assert!` in `add_req` /
`add_read` / `add_write`) are modelled by returning `Option`.
-/

/- `Time = u64` (task.rs) is modelled as `ℕ` directly. -/

/-- `Request` (rsrc.rs): total number of requests and maximum length of a
single request from one task to one resource. -/
structure Request where
  num : Nat
  length : Nat
  deriving DecidableEq

instance : Inhabited Request := ⟨⟨0, 0⟩⟩

/-- `TaskRequest` (rsrc.rs): a request set labelled with its owning task
index.  The Rust reference `&Request` is modelled by value. -/
structure TaskRequest where
  task : Nat
  req : Request
  deriving DecidableEq

/-- `RwPair` (rsrc.rs): a read/write pair of request containers. -/
structure RwPair (α : Type) where
  read : α
  write : α
  deriving DecidableEq

instance [Inhabited α] : Inhabited (RwPair α) := ⟨⟨default, default⟩⟩

/-- `Bound` (sharing.rs): worst-case interference magnitude.  Field order
(`length` before `count`) matters: the derived Rust `Ord` compares
lexicographically in declaration order. -/
structure Bound where
  length : Nat
  count : Nat
  deriving DecidableEq

instance : Inhabited Bound := ⟨⟨0, 0⟩⟩

/-- `Bound::new(length)` : unit bound with `count = 1`. -/
def Bound.unit (length : Nat) : Bound := ⟨length, 1⟩

/-- `impl Add for Bound`: elementwise addition. -/
def Bound.add (a b : Bound) : Bound := ⟨a.length + b.length, a.count + b.count⟩

instance : Add Bound := ⟨Bound.add⟩

@[simp] theorem Bound.add_length (a b : Bound) : (a + b).length = a.length + b.length := rfl

@[simp] theorem Bound.add_count (a b : Bound) : (a + b).count = a.count + b.count := rfl

/-- `impl Mul<usize> for Bound`: elementwise scalar multiplication
(`n * b` in the source, via the symmetric impl). -/
def Bound.scale (n : Nat) (b : Bound) : Bound := ⟨b.length * n, b.count * n⟩

/-- The derived lexicographic strict order on `Bound` (Rust
`#[derive(PartialOrd, Ord)]`, fields `length` then `count`). -/
def Bound.lt (a b : Bound) : Prop :=
  a.length < b.length ∨ (a.length = b.length ∧ a.count < b.count)

instance : DecidablePred fun p : Bound × Bound => Bound.lt p.1 p.2 := by
  intro p; unfold Bound.lt; infer_instance

instance (a b : Bound) : Decidable (Bound.lt a b) := by
  unfold Bound.lt; infer_instance

/-- Rust `Ord::max(self, other)`: returns `other` unless `other < self`. -/
def Bound.bmax (a b : Bound) : Bound := if Bound.lt b a then a else b

/-- `Limits` (sharing.rs): total and per-task interference caps. -/
structure Limits where
  total : Nat
  per_task : Nat
  deriving DecidableEq

/-- `impl Mul<usize> for Limits`: elementwise scaling. -/
def Limits.scale (l : Limits) (n : Nat) : Limits := ⟨l.total * n, l.per_task * n⟩

/-- The loop of `bound_blocking` (sharing.rs, lines 164-183) with the
accumulator `inter` explicit; `break` and loop exit both return the
accumulator. -/
def bbAux : List TaskRequest → Nat → Limits → Bound → Bound
  | [], _, _, inter => inter
  | tr :: rest, task, limits, inter =>
    if tr.task = task then
      bbAux rest task limits inter
    else
      let remaining := limits.total - inter.count
      if remaining = 0 then inter
      else bbAux rest task limits
        (inter + Bound.scale (min remaining limits.per_task) (Bound.unit tr.req.length))

/-- `bound_blocking(requests, task, limits)` (sharing.rs): greedy blocking
bound over an iterator of `TaskRequest`s, starting from `Bound::default()`. -/
def bound_blocking (l : List TaskRequest) (task : Nat) (limits : Limits) : Bound :=
  bbAux l task limits default

/-- Modelled from the spec (§4.1): the greedy algorithm described in the
spec's own words, tracking an accumulated count and an accumulated length —
skip the entry belonging to `task`; for each remaining entry in order, with
`remaining = limits.total` minus the accumulated count, stop if `remaining`
is zero, otherwise add `min remaining limits.per_task` copies of the entry's
length and increment the accumulated count by the same number. -/
def specGreedyAux : List TaskRequest → Nat → Limits → Nat → Nat → Nat × Nat
  | [], _, _, cnt, len => (cnt, len)
  | tr :: rest, task, lim, cnt, len =>
    if tr.task = task then specGreedyAux rest task lim cnt len
    else if lim.total - cnt = 0 then (cnt, len)
    else
      let k := min (lim.total - cnt) lim.per_task
      specGreedyAux rest task lim (cnt + k) (len + k * tr.req.length)

/-- Modelled from the spec: top-level spec-side greedy, returning the pair
(accumulated count, accumulated length) starting from zero. -/
def specGreedy (l : List TaskRequest) (task : Nat) (lim : Limits) : Nat × Nat :=
  specGreedyAux l task lim 0 0

/-- The precondition of `bound_blocking`: sorted by strictly decreasing
maximum request length. -/
def SortedByLen (l : List TaskRequest) : Prop :=
  l.Pairwise fun a b => b.req.length < a.req.length

/-- The precondition of `bound_blocking`: at most one entry per distinct
task. -/
def OnePerTask (l : List TaskRequest) : Prop :=
  l.Pairwise fun a b => a.task ≠ b.task

theorem bbAux_eq_specGreedyAux (l : List TaskRequest) (task : Nat) (lim : Limits) :
    ∀ b : Bound, bbAux l task lim b =
      ⟨(specGreedyAux l task lim b.count b.length).2,
       (specGreedyAux l task lim b.count b.length).1⟩ := by
  induction l with
  | nil => intro b; simp [bbAux, specGreedyAux]
  | cons tr rest ih =>
    intro b
    simp only [bbAux, specGreedyAux]
    by_cases htask : tr.task = task
    · simp [htask, ih]
    · simp only [htask, if_false]
      by_cases hrem : lim.total - b.count = 0
      · simp [hrem]
      · simp only [hrem, if_false]
        rw [ih]
        have : (b + Bound.scale (min (lim.total - b.count) lim.per_task)
            (Bound.unit tr.req.length)).count
            = b.count + min (lim.total - b.count) lim.per_task := by
          simp [Bound.scale, Bound.unit]
        have hlen : (b + Bound.scale (min (lim.total - b.count) lim.per_task)
            (Bound.unit tr.req.length)).length
            = b.length + min (lim.total - b.count) lim.per_task * tr.req.length := by
          simp [Bound.scale, Bound.unit, Nat.mul_comm]
        rw [this, hlen]

/-- The accumulated count of `bound_blocking` never exceeds `limits.total`. -/
theorem bbAux_count_le (l : List TaskRequest) (task : Nat) (lim : Limits) :
    ∀ b : Bound, b.count ≤ lim.total → (bbAux l task lim b).count ≤ lim.total := by
  induction l with
  | nil => intro b hb; simpa [bbAux] using hb
  | cons tr rest ih =>
    intro b hb
    simp only [bbAux]
    by_cases ht : tr.task = task
    · simp only [ht, if_true]; exact ih b hb
    · simp only [ht, if_false]
      by_cases hr : lim.total - b.count = 0
      · simpa [hr] using hb
      · simp only [hr, if_false]
        apply ih
        simp only [Bound.add_count, Bound.scale, Bound.unit]
        omega

/-- `bound_blocking` only ever grows its accumulator. -/
theorem bbAux_ge (l : List TaskRequest) (task : Nat) (lim : Limits) :
    ∀ b : Bound, b.count ≤ (bbAux l task lim b).count ∧
      b.length ≤ (bbAux l task lim b).length := by
  induction l with
  | nil => intro b; simp [bbAux]
  | cons tr rest ih =>
    intro b
    simp only [bbAux]
    by_cases ht : tr.task = task
    · simp only [ht, if_true]; exact ih b
    · simp only [ht, if_false]
      by_cases hr : lim.total - b.count = 0
      · simp [hr]
      · simp only [hr, if_false]
        obtain ⟨h1, h2⟩ := ih (b + Bound.scale (min (lim.total - b.count) lim.per_task)
          (Bound.unit tr.req.length))
        constructor
        · exact le_trans (by simp) h1
        · exact le_trans (by simp) h2

/-- Growth of the accumulated length is bounded by growth of the accumulated
count times any upper bound `v` on the remaining request lengths. -/
theorem bbAux_length_le (l : List TaskRequest) (task : Nat) (lim : Limits) :
    ∀ (v : Nat), (∀ tr ∈ l, tr.req.length ≤ v) →
    ∀ b : Bound, (bbAux l task lim b).length + b.count * v ≤
      b.length + (bbAux l task lim b).count * v := by
  induction l with
  | nil => intro v _ b; simp [bbAux]
  | cons tr rest ih =>
    intro v hv b
    have hvtail : ∀ tr' ∈ rest, tr'.req.length ≤ v := fun tr' h => hv tr' (List.mem_cons_of_mem _ h)
    simp only [bbAux]
    by_cases ht : tr.task = task
    · simp only [ht, if_true]; exact ih v hvtail b
    · simp only [ht, if_false]
      by_cases hr : lim.total - b.count = 0
      · simp [hr]
      · simp only [hr, if_false]
        have hw : tr.req.length ≤ v := hv tr (List.mem_cons_self tr rest)
        set k := min (lim.total - b.count) lim.per_task with hk
        clear_value k
        have step := ih v hvtail (b + Bound.scale k (Bound.unit tr.req.length))
        have hcnt : (b + Bound.scale k (Bound.unit tr.req.length)).count = b.count + k := by
          simp [Bound.scale, Bound.unit]
        have hlen : (b + Bound.scale k (Bound.unit tr.req.length)).length
            = b.length + tr.req.length * k := by
          simp [Bound.scale, Bound.unit]
        rw [hcnt, hlen] at step
        have h1 : tr.req.length * k ≤ v * k := Nat.mul_le_mul_right k hw
        have h2 : (b.count + k) * v = b.count * v + k * v := by ring
        rw [h2] at step
        generalize (bbAux rest task lim (b + Bound.scale k (Bound.unit tr.req.length))) = X at step ⊢
        generalize b.length = bl at step ⊢
        generalize b.count = bc at step ⊢
        generalize tr.req.length = w at step h1 ⊢
        linarith

/-- Monotonicity of the `bound_blocking` loop in `limits.total`, with the
invariant that the right-hand run dominates the left-hand one and has at
least as much remaining budget. -/
theorem bbAux_mono_total (l : List TaskRequest) (task P : Nat) :
    ∀ (T T' : Nat) (b b' : Bound), T ≤ T' → b.count ≤ T → b'.count ≤ T' →
    b.count ≤ b'.count → b.length ≤ b'.length → T - b.count ≤ T' - b'.count →
    (bbAux l task ⟨T, P⟩ b).count ≤ (bbAux l task ⟨T', P⟩ b').count ∧
    (bbAux l task ⟨T, P⟩ b).length ≤ (bbAux l task ⟨T', P⟩ b').length := by
  induction l with
  | nil => intro T T' b b' _ _ _ hcc hll _; simpa [bbAux] using ⟨hcc, hll⟩
  | cons tr rest ih =>
    intro T T' b b' hT hbT hbT' hcc hll hrem
    simp only [bbAux]
    by_cases ht : tr.task = task
    · simp only [ht, if_true]
      exact ih T T' b b' hT hbT hbT' hcc hll hrem
    · simp only [ht, if_false]
      by_cases hr : T - b.count = 0
      · -- left run stops; right run only grows from b'
        simp only [hr, if_true]
        by_cases hr' : T' - b'.count = 0
        · simp only [hr', if_true]; exact ⟨hcc, hll⟩
        · simp only [hr', if_false]
          obtain ⟨hg1, hg2⟩ := bbAux_ge rest task ⟨T', P⟩
            (b' + Bound.scale (min (T' - b'.count) P) (Bound.unit tr.req.length))
          refine ⟨le_trans hcc (le_trans (by simp) hg1),
                  le_trans hll (le_trans (by simp) hg2)⟩
      · -- left run proceeds; by the invariant so does the right run
        have hr' : ¬ (T' - b'.count = 0) := by omega
        simp only [hr, hr', if_false]
        apply ih
        · exact hT
        · simp only [Bound.add_count, Bound.scale, Bound.unit]; omega
        · simp only [Bound.add_count, Bound.scale, Bound.unit]; omega
        · simp only [Bound.add_count, Bound.scale, Bound.unit]; omega
        · simp only [Bound.add_length, Bound.scale, Bound.unit]
          have hnum : min (T - b.count) P ≤ min (T' - b'.count) P := by omega
          exact Nat.add_le_add hll (Nat.mul_le_mul_left tr.req.length hnum)
        · simp only [Bound.add_count, Bound.scale, Bound.unit]; omega

/-- Monotonicity of the `bound_blocking` loop in `limits.per_task`, for a
length-sorted request list.  `v` bounds every request length still to be
processed; the length invariant says the right-hand run's length advantage
is at least its count advantage times `v`. -/
theorem bbAux_mono_per (l : List TaskRequest) (task T : Nat) :
    ∀ (P P' v : Nat) (b b' : Bound), P ≤ P' →
    (∀ tr ∈ l, tr.req.length ≤ v) →
    l.Pairwise (fun a c => c.req.length ≤ a.req.length) →
    b.count ≤ T → b'.count ≤ T → b.count ≤ b'.count →
    b.length + b'.count * v ≤ b'.length + b.count * v →
    (bbAux l task ⟨T, P⟩ b).count ≤ (bbAux l task ⟨T, P'⟩ b').count ∧
    (bbAux l task ⟨T, P⟩ b).length ≤ (bbAux l task ⟨T, P'⟩ b').length := by
  induction l with
  | nil =>
    intro P P' v b b' _ _ _ _ _ hcc hinv
    simp only [bbAux]
    refine ⟨hcc, ?_⟩
    have h1 : b.count * v ≤ b'.count * v := Nat.mul_le_mul_right v hcc
    have h2 : b.length + b'.count * v ≤ b'.length + b'.count * v :=
      le_trans hinv (Nat.add_le_add_left h1 b'.length)
    exact Nat.le_of_add_le_add_right h2
  | cons tr rest ih =>
    intro P P' v b b' hPP hv hsort hbT hb'T hcc hinv
    have hw : tr.req.length ≤ v := hv tr (List.mem_cons_self tr rest)
    obtain ⟨hhead, hsort'⟩ := List.pairwise_cons.mp hsort
    have hvtail : ∀ tr' ∈ rest, tr'.req.length ≤ v :=
      fun tr' h => hv tr' (List.mem_cons_of_mem _ h)
    simp only [bbAux]
    by_cases ht : tr.task = task
    · simp only [ht, if_true]
      exact ih P P' v b b' hPP hvtail hsort' hbT hb'T hcc hinv
    · simp only [ht, if_false]
      by_cases hr : T - b.count = 0
      · -- both runs have exhausted the total budget and stop
        have hr' : T - b'.count = 0 := by omega
        simp only [hr, hr', if_true]
        refine ⟨hcc, ?_⟩
        have h1 : b.count * v ≤ b'.count * v := Nat.mul_le_mul_right v hcc
        exact Nat.le_of_add_le_add_right
          (le_trans hinv (Nat.add_le_add_left h1 b'.length))
      · by_cases hr' : T - b'.count = 0
        · -- the faster right-hand run stops at b'; the left run stays below it
          simp only [hr, hr', if_true, if_false]
          have hb'c : b'.count = T := by omega
          set w := tr.req.length with hwdef
          set num := min (T - b.count) P with hnum
          set s := b + Bound.scale num (Bound.unit w) with hs
          have hscount : s.count = b.count + num := by
            simp [hs, Bound.scale, Bound.unit]
          have hslength : s.length = b.length + w * num := by
            simp [hs, Bound.scale, Bound.unit]
          have hXle : (bbAux rest task ⟨T, P⟩ s).count ≤ T := by
            apply bbAux_count_le
            simp only [hscount]; omega
          have f1 := bbAux_length_le rest task ⟨T, P⟩ v hvtail s
          rw [hscount, hslength] at f1
          constructor
          · omega
          · have f2 : (bbAux rest task ⟨T, P⟩ s).count * v ≤ T * v :=
              Nat.mul_le_mul_right v hXle
            have f3 : w * num ≤ v * num := Nat.mul_le_mul_right num hw
            have f4 : b.length + T * v ≤ b'.length + b.count * v := by
              rw [hb'c] at hinv; exact hinv
            have f5 : (b.count + num) * v = b.count * v + num * v := by ring
            rw [f5] at f1
            have f6 : v * num = num * v := Nat.mul_comm v num
            linarith
        · -- both runs proceed past this entry
          simp only [hr, hr', if_false]
          apply ih P P' tr.req.length
          · exact hPP
          · exact hhead
          · exact hsort'
          · simp only [Bound.add_count, Bound.scale, Bound.unit]; omega
          · simp only [Bound.add_count, Bound.scale, Bound.unit]; omega
          · simp only [Bound.add_count, Bound.scale, Bound.unit]; omega
          · -- length invariant, with the bound lowered from v to the head length
            simp only [Bound.add_count, Bound.add_length, Bound.scale, Bound.unit]
            set w := tr.req.length with hwdef
            set num := min (T - b.count) P with hnumdef
            set num' := min (T - b'.count) P' with hnumdef'
            have hrr : b.count * v + b'.count * w ≤ b.count * w + b'.count * v :=
              mul_add_mul_le_mul_add_mul hcc hw
            have step1 : b.length + b'.count * w ≤ b'.length + b.count * w := by linarith
            have e1 : (b'.count + 1 * num') * w = b'.count * w + num' * w := by ring
            have e2 : (b.count + 1 * num) * w = b.count * w + num * w := by ring
            rw [e1, e2]
            linarith

/-- Every member of a list of naturals is bounded by its `foldr max 0`. -/
theorem le_foldr_max (xs : List Nat) : ∀ x ∈ xs, x ≤ xs.foldr max 0 := by
  induction xs with
  | nil => intro x hx; cases hx
  | cons y ys ih =>
    intro x hx
    rcases List.mem_cons.mp hx with h | h
    · subst h; exact le_max_left _ _
    · exact le_trans (ih x h) (le_max_right _ _)

/-- C1: for every list of `TaskRequest`s satisfying the precondition (at most
one entry per distinct task, sorted by decreasing max request length), every
task index and every `Limits`, `bound_blocking` returns exactly the bound
computed by the spec's greedy algorithm (skip the entry belonging to `task`;
for each remaining entry in order, with `remaining = limits.total` minus the
accumulated count, stop if `remaining` is zero, otherwise add
`min remaining limits.per_task` copies of that entry's length and increment
the accumulated count by the same number). -/
theorem bound_blocking_eq_specGreedy (l : List TaskRequest) (task : Nat) (lim : Limits)
    (hsort : SortedByLen l) (huniq : OnePerTask l) :
    (bound_blocking l task lim).count = (specGreedy l task lim).1 ∧
    (bound_blocking l task lim).length = (specGreedy l task lim).2 := by
  have h := bbAux_eq_specGreedyAux l task lim default
  unfold bound_blocking specGreedy
  rw [h]
  exact ⟨rfl, rfl⟩

/-- Witness for C1 at a concrete sorted, one-entry-per-task input. -/
theorem bound_blocking_eq_specGreedy_witness :
    SortedByLen [⟨1, ⟨1, 10⟩⟩, ⟨2, ⟨1, 7⟩⟩] ∧
    OnePerTask [⟨1, ⟨1, 10⟩⟩, ⟨2, ⟨1, 7⟩⟩] ∧
    ((bound_blocking [⟨1, ⟨1, 10⟩⟩, ⟨2, ⟨1, 7⟩⟩] 0 ⟨2, 1⟩).count =
      (specGreedy [⟨1, ⟨1, 10⟩⟩, ⟨2, ⟨1, 7⟩⟩] 0 ⟨2, 1⟩).1 ∧
     (bound_blocking [⟨1, ⟨1, 10⟩⟩, ⟨2, ⟨1, 7⟩⟩] 0 ⟨2, 1⟩).length =
      (specGreedy [⟨1, ⟨1, 10⟩⟩, ⟨2, ⟨1, 7⟩⟩] 0 ⟨2, 1⟩).2) := by
  have hs : SortedByLen [⟨1, ⟨1, 10⟩⟩, ⟨2, ⟨1, 7⟩⟩] := by
    simp [SortedByLen, List.pairwise_cons]
  have hu : OnePerTask [⟨1, ⟨1, 10⟩⟩, ⟨2, ⟨1, 7⟩⟩] := by
    simp [OnePerTask, List.pairwise_cons]
  exact ⟨hs, hu, bound_blocking_eq_specGreedy _ 0 ⟨2, 1⟩ hs hu⟩

/-- C8: holding the (sorted, one-entry-per-task) competitor list and the
skipped task fixed, `bound_blocking` is monotonically non-decreasing in both
its `count` and `length` fields when `limits.total` increases with
`limits.per_task` held fixed, and when `limits.per_task` increases with
`limits.total` held fixed. -/
theorem bound_blocking_monotone (l : List TaskRequest) (task : Nat)
    (hsort : SortedByLen l) (huniq : OnePerTask l) (T T' P P' : Nat) :
    (T ≤ T' →
      (bound_blocking l task ⟨T, P⟩).count ≤ (bound_blocking l task ⟨T', P⟩).count ∧
      (bound_blocking l task ⟨T, P⟩).length ≤ (bound_blocking l task ⟨T', P⟩).length) ∧
    (P ≤ P' →
      (bound_blocking l task ⟨T, P⟩).count ≤ (bound_blocking l task ⟨T, P'⟩).count ∧
      (bound_blocking l task ⟨T, P⟩).length ≤ (bound_blocking l task ⟨T, P'⟩).length) := by
  constructor
  · intro hT
    apply bbAux_mono_total l task P T T' default default hT
    · exact Nat.zero_le T
    · exact Nat.zero_le T'
    · exact Nat.le_refl 0
    · exact Nat.le_refl 0
    · show T - 0 ≤ T' - 0
      omega
  · intro hP
    apply bbAux_mono_per l task T P P' ((l.map fun tr => tr.req.length).foldr max 0)
      default default hP
    · intro tr htr
      exact le_foldr_max _ _ (List.mem_map_of_mem _ htr)
    · exact hsort.imp fun h => le_of_lt h
    · exact Nat.zero_le T
    · exact Nat.zero_le T
    · exact Nat.le_refl 0
    · exact Nat.le_refl _

/-- Witness for C8 at a concrete sorted input, with both monotonicity
directions discharged at `(total, per_task) = (1,1) ≤ (2,1)` and
`(1,1) ≤ (1,2)`. -/
theorem bound_blocking_monotone_witness :
    ((bound_blocking [⟨1, ⟨1, 10⟩⟩, ⟨2, ⟨1, 7⟩⟩] 0 ⟨1, 1⟩).count ≤
      (bound_blocking [⟨1, ⟨1, 10⟩⟩, ⟨2, ⟨1, 7⟩⟩] 0 ⟨2, 1⟩).count ∧
     (bound_blocking [⟨1, ⟨1, 10⟩⟩, ⟨2, ⟨1, 7⟩⟩] 0 ⟨1, 1⟩).length ≤
      (bound_blocking [⟨1, ⟨1, 10⟩⟩, ⟨2, ⟨1, 7⟩⟩] 0 ⟨2, 1⟩).length) ∧
    ((bound_blocking [⟨1, ⟨1, 10⟩⟩, ⟨2, ⟨1, 7⟩⟩] 0 ⟨1, 1⟩).count ≤
      (bound_blocking [⟨1, ⟨1, 10⟩⟩, ⟨2, ⟨1, 7⟩⟩] 0 ⟨1, 2⟩).count ∧
     (bound_blocking [⟨1, ⟨1, 10⟩⟩, ⟨2, ⟨1, 7⟩⟩] 0 ⟨1, 1⟩).length ≤
      (bound_blocking [⟨1, ⟨1, 10⟩⟩, ⟨2, ⟨1, 7⟩⟩] 0 ⟨1, 2⟩).length) := by
  have hs : SortedByLen [⟨1, ⟨1, 10⟩⟩, ⟨2, ⟨1, 7⟩⟩] := by
    simp [SortedByLen, List.pairwise_cons]
  have hu : OnePerTask [⟨1, ⟨1, 10⟩⟩, ⟨2, ⟨1, 7⟩⟩] := by
    simp [OnePerTask, List.pairwise_cons]
  have h := bound_blocking_monotone [⟨1, ⟨1, 10⟩⟩, ⟨2, ⟨1, 7⟩⟩] 0 hs hu 1 2 1 2
  exact ⟨h.1 (by omega), h.2 (by omega)⟩

/-- `Task` (task.rs): period, cost (WCET), deadline and priority.  Named
`RTask` here because core Lean already owns the name `Task`. -/
structure RTask where
  period : Nat
  cost : Nat
  deadline : Nat
  priority : Nat
  deriving DecidableEq

instance : Inhabited RTask := ⟨⟨0, 0, 0, 0⟩⟩

/-- `ObliviousData` (sharing.rs): arrival and total blocking bounds. -/
structure ObliviousData where
  arrival : Bound
  total : Bound
  deriving DecidableEq

instance : Inhabited ObliviousData := ⟨⟨default, default⟩⟩

/-- `impl From<Bound> for ObliviousData`: total blocking, no arrival
blocking. -/
def ObliviousData.ofTotal (total : Bound) : ObliviousData := ⟨default, total⟩

/-- `impl Sum for Bound`: left fold of `+=` starting from the default. -/
def boundSum (l : List Bound) : Bound := l.foldl (· + ·) default

@[simp] theorem Bound.default_add (b : Bound) : (default : Bound) + b = b := by
  cases b with
  | mk l c =>
    show Bound.mk (0 + l) (0 + c) = ⟨l, c⟩
    simp

/-- `FlexibleMulti::pass` (proto/fmlp.rs): FMLP analysis for one task.
`n` is `sys.num_tasks()`; `reqsBy` is `sys.reqs_by(task)` and `byRsrc` the
resource-major usage, zipped per resource. -/
def fmlpPass (n task : Nat) (reqsBy : List Request) (byRsrc : List (List TaskRequest)) :
    ObliviousData :=
  ObliviousData.ofTotal (boundSum ((reqsBy.zip byRsrc).map fun p =>
    if p.1.num = 0 then default
    else bound_blocking p.2 task (Limits.scale ⟨n - 1, 1⟩ p.1.num)))

/-- `GlobalOm::pass` (proto/omlp.rs): global-OMLP analysis for one task
with `m` CPUs. -/
def omlpPass (m task : Nat) (reqsBy : List Request) (byRsrc : List (List TaskRequest)) :
    ObliviousData :=
  ObliviousData.ofTotal (boundSum ((reqsBy.zip byRsrc).map fun p =>
    if p.1.num = 0 then default
    else
      let nreqs := (p.2.filter fun tr => 0 < tr.req.num).length
      let limits : Limits := if nreqs ≤ m + 1 then ⟨nreqs - 1, 1⟩ else ⟨2 * m - 1, 2⟩
      bound_blocking p.2 task (Limits.scale limits p.1.num)))

/-- The per-write worst case `wsingle` of `OptimalFIFO::pass` for `Rw`
(proto/olpf.rs, lines 66-83), computed when the task issues writes. -/
def olpfWsingle (m task : Nat) (writes reads : List TaskRequest) : Bound :=
  let rbound := bound_blocking reads task ⟨1, 1⟩
  let case1lim : Limits := ⟨m - 1, 1⟩
  let case1 := bound_blocking writes task case1lim
  if case1.count < case1lim.total ∨ rbound.length = 0 then
    case1 + Bound.scale (case1.count + 1) rbound
  else
    let case2lim : Limits := ⟨m - 2, 1⟩
    let case2 := bound_blocking writes task case2lim
    Bound.bmax (case1 + Bound.scale (m - 2) rbound) (case2 + Bound.scale (m - 1) rbound)

/-- C6: under FMLP, a task's bound for each resource it requests with its
own request count `num > 0` is `bound_blocking` over that resource's sorted
usage with limits `total = (n − 1)·num`, `per_task = 1·num` (`n` the number
of tasks); and in the scenario of one resource and three tasks each with one
request of length 10 (`n = 3`), every task's bound is count 2, length 20. -/
theorem fmlp_bound_characterization :
    (∀ (n task : Nat) (reqsBy : List Request) (byRsrc : List (List TaskRequest)),
      (fmlpPass n task reqsBy byRsrc).total =
        boundSum ((reqsBy.zip byRsrc).map fun p =>
          if p.1.num = 0 then default
          else bound_blocking p.2 task ⟨(n - 1) * p.1.num, 1 * p.1.num⟩)) ∧
    (fmlpPass 3 0 [⟨1, 10⟩] [[⟨0, ⟨1, 10⟩⟩, ⟨1, ⟨1, 10⟩⟩, ⟨2, ⟨1, 10⟩⟩]]
      = ⟨default, ⟨20, 2⟩⟩) ∧
    (fmlpPass 3 1 [⟨1, 10⟩] [[⟨0, ⟨1, 10⟩⟩, ⟨1, ⟨1, 10⟩⟩, ⟨2, ⟨1, 10⟩⟩]]
      = ⟨default, ⟨20, 2⟩⟩) ∧
    (fmlpPass 3 2 [⟨1, 10⟩] [[⟨0, ⟨1, 10⟩⟩, ⟨1, ⟨1, 10⟩⟩, ⟨2, ⟨1, 10⟩⟩]]
      = ⟨default, ⟨20, 2⟩⟩) := by
  refine ⟨fun n task reqsBy byRsrc => rfl, by decide, by decide, by decide⟩

/-- C3: the global-OMLP per-resource bound for a task with nonzero request
count `num` is `bound_blocking` over the resource's usage with base limits
scaled by `num`, the base being `total = nreqs − 1, per_task = 1` when
`nreqs ≤ m + 1` and `total = 2m − 1, per_task = 2` otherwise, `nreqs` the
number of tasks with nonzero requests to the resource; in the scenario of
one resource, three tasks each with one request of length 10 and `m = 2`,
every task's bound is count 2, length 20. -/
theorem omlp_bound_characterization (m task : Nat) (req : Request)
    (rset : List TaskRequest) (h : req.num ≠ 0) :
    ((omlpPass m task [req] [rset]).total =
      bound_blocking rset task
        (Limits.scale
          (if (rset.filter fun tr => 0 < tr.req.num).length ≤ m + 1
           then ⟨(rset.filter fun tr => 0 < tr.req.num).length - 1, 1⟩
           else ⟨2 * m - 1, 2⟩) req.num)) ∧
    (omlpPass 2 0 [⟨1, 10⟩] [[⟨0, ⟨1, 10⟩⟩, ⟨1, ⟨1, 10⟩⟩, ⟨2, ⟨1, 10⟩⟩]]
      = ⟨default, ⟨20, 2⟩⟩) ∧
    (omlpPass 2 1 [⟨1, 10⟩] [[⟨0, ⟨1, 10⟩⟩, ⟨1, ⟨1, 10⟩⟩, ⟨2, ⟨1, 10⟩⟩]]
      = ⟨default, ⟨20, 2⟩⟩) ∧
    (omlpPass 2 2 [⟨1, 10⟩] [[⟨0, ⟨1, 10⟩⟩, ⟨1, ⟨1, 10⟩⟩, ⟨2, ⟨1, 10⟩⟩]]
      = ⟨default, ⟨20, 2⟩⟩) := by
  refine ⟨?_, by decide, by decide, by decide⟩
  simp only [omlpPass, ObliviousData.ofTotal, boundSum, List.zip_cons_cons,
    List.zip_nil_right, List.map_cons, List.map_nil, List.foldl_cons, List.foldl_nil,
    h, if_false]
  rw [Bound.default_add]

/-- Witness for C3 at a concrete nonzero request count. -/
theorem omlp_bound_characterization_witness :
    (⟨1, 10⟩ : Request).num ≠ 0 ∧
    ((omlpPass 2 0 [⟨1, 10⟩] [[⟨0, ⟨1, 10⟩⟩, ⟨1, ⟨1, 10⟩⟩, ⟨2, ⟨1, 10⟩⟩]]).total =
      bound_blocking [⟨0, ⟨1, 10⟩⟩, ⟨1, ⟨1, 10⟩⟩, ⟨2, ⟨1, 10⟩⟩] 0
        (Limits.scale
          (if (([⟨0, ⟨1, 10⟩⟩, ⟨1, ⟨1, 10⟩⟩, ⟨2, ⟨1, 10⟩⟩] :
              List TaskRequest).filter fun tr => 0 < tr.req.num).length ≤ 2 + 1
           then ⟨(([⟨0, ⟨1, 10⟩⟩, ⟨1, ⟨1, 10⟩⟩, ⟨2, ⟨1, 10⟩⟩] :
              List TaskRequest).filter fun tr => 0 < tr.req.num).length - 1, 1⟩
           else ⟨2 * 2 - 1, 2⟩) (⟨1, 10⟩ : Request).num)) :=
  ⟨by decide,
   (omlp_bound_characterization 2 0 ⟨1, 10⟩
     [⟨0, ⟨1, 10⟩⟩, ⟨1, ⟨1, 10⟩⟩, ⟨2, ⟨1, 10⟩⟩] (by decide)).1⟩

/-- C4: in the RW-OLP-F writer-side analysis with `m` CPUs, when the case-1
writer bound (limits `total = m − 1`, `per_task = 1`) has count exactly
`m − 1` and the single-reader bound has nonzero length, the per-write bound
is the larger (under the derived lexicographic ordering on `Bound`) of
`case1 + (m − 2)·rbound` and `case2 + (m − 1)·rbound`, with `case2` the
writer bound for limits `total = m − 2, per_task = 1`; in every other
writer case it is `case1 + (case1.count + 1)·rbound`. -/
theorem olpf_wsingle_cases (m task : Nat) (writes reads : List TaskRequest) :
    ((bound_blocking writes task ⟨m - 1, 1⟩).count = m - 1 →
     (bound_blocking reads task ⟨1, 1⟩).length ≠ 0 →
      olpfWsingle m task writes reads =
        Bound.bmax
          (bound_blocking writes task ⟨m - 1, 1⟩ +
            Bound.scale (m - 2) (bound_blocking reads task ⟨1, 1⟩))
          (bound_blocking writes task ⟨m - 2, 1⟩ +
            Bound.scale (m - 1) (bound_blocking reads task ⟨1, 1⟩))) ∧
    (((bound_blocking writes task ⟨m - 1, 1⟩).count ≠ m - 1 ∨
      (bound_blocking reads task ⟨1, 1⟩).length = 0) →
      olpfWsingle m task writes reads =
        bound_blocking writes task ⟨m - 1, 1⟩ +
          Bound.scale ((bound_blocking writes task ⟨m - 1, 1⟩).count + 1)
            (bound_blocking reads task ⟨1, 1⟩)) := by
  have hle : (bound_blocking writes task ⟨m - 1, 1⟩).count ≤ m - 1 :=
    bbAux_count_le writes task ⟨m - 1, 1⟩ default (Nat.zero_le _)
  constructor
  · intro hcnt hrb
    have hnot : ¬ ((bound_blocking writes task ⟨m - 1, 1⟩).count < m - 1 ∨
        (bound_blocking reads task ⟨1, 1⟩).length = 0) := by
      push_neg
      exact ⟨by omega, hrb⟩
    simp only [olpfWsingle, hnot, if_false]
  · intro hor
    have hcond : (bound_blocking writes task ⟨m - 1, 1⟩).count < m - 1 ∨
        (bound_blocking reads task ⟨1, 1⟩).length = 0 := by
      rcases hor with h | h
      · left; omega
      · right; exact h
    simp only [olpfWsingle, hcond, if_true]

/-- Witness for C4: `m = 2`, one competing writer of length 7 and one
competing reader of length 3 put the analysis in the full-queue case; one
competing reader of length 0 puts it in the other case. -/
theorem olpf_wsingle_cases_witness :
    ((bound_blocking [⟨1, ⟨1, 7⟩⟩] 0 ⟨2 - 1, 1⟩).count = 2 - 1 ∧
     (bound_blocking [⟨2, ⟨1, 3⟩⟩] 0 ⟨1, 1⟩).length ≠ 0 ∧
     olpfWsingle 2 0 [⟨1, ⟨1, 7⟩⟩] [⟨2, ⟨1, 3⟩⟩] =
       Bound.bmax
         (bound_blocking [⟨1, ⟨1, 7⟩⟩] 0 ⟨2 - 1, 1⟩ +
           Bound.scale (2 - 2) (bound_blocking [⟨2, ⟨1, 3⟩⟩] 0 ⟨1, 1⟩))
         (bound_blocking [⟨1, ⟨1, 7⟩⟩] 0 ⟨2 - 2, 1⟩ +
           Bound.scale (2 - 1) (bound_blocking [⟨2, ⟨1, 3⟩⟩] 0 ⟨1, 1⟩))) ∧
    ((bound_blocking [⟨2, ⟨1, 0⟩⟩] 0 ⟨1, 1⟩).length = 0 ∧
     olpfWsingle 2 0 [⟨1, ⟨1, 7⟩⟩] [⟨2, ⟨1, 0⟩⟩] =
       bound_blocking [⟨1, ⟨1, 7⟩⟩] 0 ⟨2 - 1, 1⟩ +
         Bound.scale ((bound_blocking [⟨1, ⟨1, 7⟩⟩] 0 ⟨2 - 1, 1⟩).count + 1)
           (bound_blocking [⟨2, ⟨1, 0⟩⟩] 0 ⟨1, 1⟩)) := by
  constructor
  · refine ⟨by decide, by decide, ?_⟩
    exact (olpf_wsingle_cases 2 0 [⟨1, ⟨1, 7⟩⟩] [⟨2, ⟨1, 3⟩⟩]).1 (by decide) (by decide)
  · refine ⟨by decide, ?_⟩
    exact (olpf_wsingle_cases 2 0 [⟨1, ⟨1, 7⟩⟩] [⟨2, ⟨1, 0⟩⟩]).2 (Or.inr (by decide))

/-- C10: `bound_blocking` does not skip competitor entries whose request
count is zero — the result is unchanged when every entry's `num` is zeroed
out; an entry with `num = 0` (and length 0 for a default slot) still
consumes `min remaining per_task` units of interference budget while adding
zero length; and consequently FMLP (`n = 2`, a competitor task making no
requests at all) returns a bound whose count includes that task. -/
theorem bound_blocking_ignores_num :
    (∀ (l : List TaskRequest) (task : Nat) (lim : Limits),
      bound_blocking (l.map fun tr => ⟨tr.task, ⟨0, tr.req.length⟩⟩) task lim =
        bound_blocking l task lim) ∧
    (∀ lim : Limits, lim.total ≠ 0 →
      bound_blocking [⟨1, ⟨0, 0⟩⟩] 0 lim = ⟨0, min lim.total lim.per_task⟩) ∧
    (fmlpPass 2 0 [⟨1, 10⟩] [[⟨0, ⟨1, 10⟩⟩, ⟨1, ⟨0, 0⟩⟩]] = ⟨default, ⟨0, 1⟩⟩) := by
  refine ⟨?_, ?_, by decide⟩
  · intro l task lim
    unfold bound_blocking
    generalize (default : Bound) = b
    induction l generalizing b with
    | nil => rfl
    | cons tr rest ih =>
      simp only [List.map_cons, bbAux]
      by_cases ht : tr.task = task
      · simp only [ht, if_true, ih]
      · simp only [ht, if_false, ih]
  · intro lim h
    have hstep : bound_blocking [⟨1, ⟨0, 0⟩⟩] 0 lim
        = if lim.total - 0 = 0 then default
          else default + Bound.scale (min (lim.total - 0) lim.per_task) (Bound.unit 0) := rfl
    rw [hstep, if_neg (by omega)]
    show Bound.mk (0 + 0 * min (lim.total - 0) lim.per_task)
      (0 + 1 * min (lim.total - 0) lim.per_task) = _
    simp

/-- Witness for C10 at concrete limits with nonzero total budget. -/
theorem bound_blocking_ignores_num_witness :
    (⟨2, 1⟩ : Limits).total ≠ 0 ∧
    bound_blocking [⟨1, ⟨0, 0⟩⟩] 0 ⟨2, 1⟩ =
      ⟨0, min (⟨2, 1⟩ : Limits).total (⟨2, 1⟩ : Limits).per_task⟩ :=
  ⟨by decide, bound_blocking_ignores_num.2.1 ⟨2, 1⟩ (by decide)⟩

@[simp] theorem Bound.add_default (b : Bound) : b + (default : Bound) = b := by
  cases b with
  | mk l c =>
    show Bound.mk (l + 0) (c + 0) = ⟨l, c⟩
    simp

/-- `Iterator::max` over `Bound`s: left fold of `Ord::max`, `None` when the
iterator is empty. -/
def iterMax (l : List Bound) : Option Bound :=
  l.foldl (fun acc x => some (acc.elim x fun a => Bound.bmax a x)) none

/-- `SingleClusterOm::pass` for `Mutex` (proto/omlp.rs, lines 61-88):
C-OMLP analysis for one task with `m` CPUs. -/
def scoPass (m task : Nat) (reqsBy : List Request) (byRsrc : List (List TaskRequest)) :
    ObliviousData :=
  (reqsBy.zip byRsrc).foldl (fun out p =>
    if p.1.num = 0 then out
    else
      let limits : Limits := ⟨m - 1, 1⟩
      let total := bound_blocking p.2 task (Limits.scale limits p.1.num)
      let arrival :=
        if p.1.num = 1 then total
        else bound_blocking p.2 task limits
      let arrival := arrival + Bound.unit p.1.length
      ⟨Bound.bmax out.arrival arrival, out.total + total⟩)
    default

/-- `SingleClusterOm::post` for `Mutex` (proto/omlp.rs, lines 90-100):
adds to each task's total the maximum arrival bound over distinct tasks of
lower-or-equal priority value, or the default bound if there are none. -/
def scoPost (tasks : List RTask) (out : List ObliviousData) : List ObliviousData :=
  (List.range tasks.length).map fun task =>
    let d := out.getD task default
    ⟨d.arrival,
     d.total + (iterMax (((List.range tasks.length).filter fun i =>
         decide (i ≠ task ∧
           (tasks.getD i default).priority ≤ (tasks.getD task default).priority)).map
       fun i => (out.getD i default).arrival)).getD default⟩

/-- C5: for C-OMLP, `post` adds to each task `t`'s total the maximum arrival
bound over tasks `i ≠ t` with `priority i ≤ priority t` (the zero bound when
no such `i` exists), never `t`'s own arrival bound; in Scenario D (two tasks
of equal priority, each with one request of length 5 to its own resource,
`m = 2`) each task's total gains the other task's arrival bound, whose
length is 5. -/
theorem sco_post_characterization :
    (∀ (tasks : List RTask) (out : List ObliviousData) (t : Nat), t < tasks.length →
      (scoPost tasks out).getD t default =
        ⟨(out.getD t default).arrival,
         (out.getD t default).total +
           (iterMax (((List.range tasks.length).filter fun i =>
               decide (i ≠ t ∧
                 (tasks.getD i default).priority ≤ (tasks.getD t default).priority)).map
             fun i => (out.getD i default).arrival)).getD default⟩) ∧
    (∀ (tasks : List RTask) (out : List ObliviousData) (t : Nat), t < tasks.length →
      ((List.range tasks.length).filter fun i =>
          decide (i ≠ t ∧
            (tasks.getD i default).priority ≤ (tasks.getD t default).priority)) = [] →
      (scoPost tasks out).getD t default =
        ⟨(out.getD t default).arrival, (out.getD t default).total⟩) ∧
    (((scoPost [⟨10, 1, 10, 7⟩, ⟨10, 1, 10, 7⟩]
        [scoPass 2 0 [⟨1, 5⟩, ⟨0, 0⟩] [[⟨0, ⟨1, 5⟩⟩, ⟨1, ⟨0, 0⟩⟩], [⟨1, ⟨1, 5⟩⟩, ⟨0, ⟨0, 0⟩⟩]],
         scoPass 2 1 [⟨0, 0⟩, ⟨1, 5⟩] [[⟨0, ⟨1, 5⟩⟩, ⟨1, ⟨0, 0⟩⟩], [⟨1, ⟨1, 5⟩⟩, ⟨0, ⟨0, 0⟩⟩]]]).getD 0 default).total =
      (scoPass 2 0 [⟨1, 5⟩, ⟨0, 0⟩] [[⟨0, ⟨1, 5⟩⟩, ⟨1, ⟨0, 0⟩⟩], [⟨1, ⟨1, 5⟩⟩, ⟨0, ⟨0, 0⟩⟩]]).total +
        (scoPass 2 1 [⟨0, 0⟩, ⟨1, 5⟩] [[⟨0, ⟨1, 5⟩⟩, ⟨1, ⟨0, 0⟩⟩], [⟨1, ⟨1, 5⟩⟩, ⟨0, ⟨0, 0⟩⟩]]).arrival ∧
     (scoPass 2 1 [⟨0, 0⟩, ⟨1, 5⟩] [[⟨0, ⟨1, 5⟩⟩, ⟨1, ⟨0, 0⟩⟩], [⟨1, ⟨1, 5⟩⟩, ⟨0, ⟨0, 0⟩⟩]]).arrival.length = 5) ∧
    (((scoPost [⟨10, 1, 10, 7⟩, ⟨10, 1, 10, 7⟩]
        [scoPass 2 0 [⟨1, 5⟩, ⟨0, 0⟩] [[⟨0, ⟨1, 5⟩⟩, ⟨1, ⟨0, 0⟩⟩], [⟨1, ⟨1, 5⟩⟩, ⟨0, ⟨0, 0⟩⟩]],
         scoPass 2 1 [⟨0, 0⟩, ⟨1, 5⟩] [[⟨0, ⟨1, 5⟩⟩, ⟨1, ⟨0, 0⟩⟩], [⟨1, ⟨1, 5⟩⟩, ⟨0, ⟨0, 0⟩⟩]]]).getD 1 default).total =
      (scoPass 2 1 [⟨0, 0⟩, ⟨1, 5⟩] [[⟨0, ⟨1, 5⟩⟩, ⟨1, ⟨0, 0⟩⟩], [⟨1, ⟨1, 5⟩⟩, ⟨0, ⟨0, 0⟩⟩]]).total +
        (scoPass 2 0 [⟨1, 5⟩, ⟨0, 0⟩] [[⟨0, ⟨1, 5⟩⟩, ⟨1, ⟨0, 0⟩⟩], [⟨1, ⟨1, 5⟩⟩, ⟨0, ⟨0, 0⟩⟩]]).arrival ∧
     (scoPass 2 0 [⟨1, 5⟩, ⟨0, 0⟩] [[⟨0, ⟨1, 5⟩⟩, ⟨1, ⟨0, 0⟩⟩], [⟨1, ⟨1, 5⟩⟩, ⟨0, ⟨0, 0⟩⟩]]).arrival.length = 5) := by
  have hchar : ∀ (tasks : List RTask) (out : List ObliviousData) (t : Nat),
      t < tasks.length →
      (scoPost tasks out).getD t default =
        ⟨(out.getD t default).arrival,
         (out.getD t default).total +
           (iterMax (((List.range tasks.length).filter fun i =>
               decide (i ≠ t ∧
                 (tasks.getD i default).priority ≤ (tasks.getD t default).priority)).map
             fun i => (out.getD i default).arrival)).getD default⟩ := by
    intro tasks out t ht
    unfold scoPost
    rw [List.getD_eq_getElem _ _ (by simpa using ht)]
    simp [ht]
  refine ⟨hchar, ?_, by decide, by decide⟩
  intro tasks out t ht hfil
  rw [hchar tasks out t ht, hfil]
  simp [iterMax]

/-- Witness for C5's characterization hypotheses at the Scenario D input. -/
theorem sco_post_characterization_witness :
    (0 : Nat) < ([⟨10, 1, 10, 7⟩, ⟨10, 1, 10, 7⟩] : List RTask).length ∧
    (scoPost [⟨10, 1, 10, 7⟩, ⟨10, 1, 10, 7⟩] [⟨⟨5, 2⟩, ⟨0, 1⟩⟩, ⟨⟨5, 2⟩, ⟨0, 1⟩⟩]).getD 0 default =
      ⟨(([⟨⟨5, 2⟩, ⟨0, 1⟩⟩, ⟨⟨5, 2⟩, ⟨0, 1⟩⟩] : List ObliviousData).getD 0 default).arrival,
       (([⟨⟨5, 2⟩, ⟨0, 1⟩⟩, ⟨⟨5, 2⟩, ⟨0, 1⟩⟩] : List ObliviousData).getD 0 default).total +
         (iterMax (((List.range ([⟨10, 1, 10, 7⟩, ⟨10, 1, 10, 7⟩] : List RTask).length).filter fun i =>
             decide (i ≠ 0 ∧
               (([⟨10, 1, 10, 7⟩, ⟨10, 1, 10, 7⟩] : List RTask).getD i default).priority ≤
                 (([⟨10, 1, 10, 7⟩, ⟨10, 1, 10, 7⟩] : List RTask).getD 0 default).priority)).map
           fun i => (([⟨⟨5, 2⟩, ⟨0, 1⟩⟩, ⟨⟨5, 2⟩, ⟨0, 1⟩⟩] : List ObliviousData).getD i default).arrival)).getD default⟩ :=
  ⟨by decide,
   sco_post_characterization.1 [⟨10, 1, 10, 7⟩, ⟨10, 1, 10, 7⟩]
     [⟨⟨5, 2⟩, ⟨0, 1⟩⟩, ⟨⟨5, 2⟩, ⟨0, 1⟩⟩] 0 (by decide)⟩

/-- `Set::utilization` for a collection of `ObliviousTask`s (sharing.rs
lines 206-213 and task.rs lines 103-112): exact rational sum of
`(cost + total blocking length) / period` over the collection, starting
from zero. -/
def utilization (ts : List (RTask × ObliviousData)) : ℚ :=
  ts.foldl (fun acc p => acc + ((p.1.cost : ℚ) + (p.2.total.length : ℚ)) / (p.1.period : ℚ)) 0

/-- `Set::implicit` for a collection of `ObliviousTask`s: all deadlines
equal periods. -/
def implicitAll (ts : List (RTask × ObliviousData)) : Bool :=
  ts.all fun p => p.1.period == p.1.deadline

/-- `Set::feasible` for a collection of `ObliviousTask`s: each task's cost
plus total blocking length fits in its period. -/
def feasibleAll (ts : List (RTask × ObliviousData)) : Bool :=
  ts.all fun p => decide (p.1.cost + p.2.total.length ≤ p.1.period)

/-- `soft(ts, num_cpus)` (bound.rs): `None` unless all deadlines are
implicit, otherwise the conjunction of the utilization test against the CPU
count and per-task feasibility. -/
def soft (ts : List (RTask × ObliviousData)) (num_cpus : Nat) : Option Bool :=
  if implicitAll ts then
    some (decide (utilization ts ≤ (num_cpus : ℚ)) && feasibleAll ts)
  else none

/-- C7: `soft` returns `none` exactly when not every task has deadline equal
to period; otherwise it returns `some b` with `b` true iff total utilization
(cost inflated by the total blocking length) is at most the CPU count and
every task satisfies `cost + blocking ≤ period`.  In particular a task with
cost 3, period 10, deadline 10 and blocking length 2 passes for any `m ≥ 1`,
while the same task with deadline 8 yields `none` regardless of blocking. -/
theorem soft_characterization :
    (∀ (ts : List (RTask × ObliviousData)) (m : Nat),
      (soft ts m = none ↔ ¬ ∀ p ∈ ts, p.1.deadline = p.1.period)) ∧
    (∀ (ts : List (RTask × ObliviousData)) (m : Nat) (b : Bool), soft ts m = some b →
      (b = true ↔ (utilization ts ≤ (m : ℚ) ∧
        ∀ p ∈ ts, p.1.cost + p.2.total.length ≤ p.1.period))) ∧
    (∀ m : Nat, 1 ≤ m → soft [(⟨10, 3, 10, 0⟩, ⟨default, ⟨2, 1⟩⟩)] m = some true) ∧
    (∀ (d : ObliviousData) (m : Nat), soft [(⟨10, 3, 8, 0⟩, d)] m = none) := by
  have himp : ∀ ts : List (RTask × ObliviousData),
      implicitAll ts = true ↔ ∀ p ∈ ts, p.1.deadline = p.1.period := by
    intro ts
    simp only [implicitAll, List.all_eq_true, beq_iff_eq]
    constructor
    · intro h p hp; exact (h p hp).symm
    · intro h p hp; exact (h p hp).symm
  refine ⟨?_, ?_, ?_, ?_⟩
  · intro ts m
    unfold soft
    by_cases h : implicitAll ts
    · simp only [h, if_true]
      have hall := (himp ts).mp h
      exact ⟨fun hc => absurd hc (Option.some_ne_none _), fun hna => absurd hall hna⟩
    · simp only [h, if_false]
      simp only [Bool.not_eq_true] at h
      constructor
      · intro _ hall
        exact absurd ((himp ts).mpr hall) (by simp [h])
      · intro _; rfl
  · intro ts m b hsome
    unfold soft at hsome
    by_cases h : implicitAll ts
    · simp only [h, if_true, Option.some.injEq] at hsome
      subst hsome
      simp [feasibleAll, List.all_eq_true]
    · simp [h] at hsome
  · intro m hm
    have himp1 : implicitAll [(⟨10, 3, 10, 0⟩, ⟨default, ⟨2, 1⟩⟩)] = true := by decide
    unfold soft
    rw [if_pos himp1]
    have hut : utilization [(⟨10, 3, 10, 0⟩, ⟨default, ⟨2, 1⟩⟩)] = 1 / 2 := by
      norm_num [utilization]
    have hle : utilization [(⟨10, 3, 10, 0⟩, ⟨default, ⟨2, 1⟩⟩)] ≤ (m : ℚ) := by
      rw [hut]
      have : (1 : ℚ) ≤ (m : ℚ) := by exact_mod_cast hm
      linarith
    rw [decide_eq_true hle]
    have : feasibleAll [(⟨10, 3, 10, 0⟩, ⟨default, ⟨2, 1⟩⟩)] = true := by decide
    rw [this]
    rfl
  · intro d m
    have : implicitAll [(⟨10, 3, 8, 0⟩, d)] = false := by
      simp [implicitAll]
    unfold soft
    rw [this]
    simp

/-- Witness for C7: the interesting hypotheses discharged at the Scenario E
inputs. -/
theorem soft_characterization_witness :
    (soft [(⟨10, 3, 10, 0⟩, ⟨default, ⟨2, 1⟩⟩)] 1 = none ↔
      ¬ ∀ p ∈ [((⟨10, 3, 10, 0⟩ : RTask), (⟨default, ⟨2, 1⟩⟩ : ObliviousData))],
        p.1.deadline = p.1.period) ∧
    (true = true ↔ (utilization [(⟨10, 3, 10, 0⟩, ⟨default, ⟨2, 1⟩⟩)] ≤ (1 : Nat) ∧
      ∀ p ∈ [((⟨10, 3, 10, 0⟩ : RTask), (⟨default, ⟨2, 1⟩⟩ : ObliviousData))],
        p.1.cost + p.2.total.length ≤ p.1.period)) ∧
    soft [(⟨10, 3, 10, 0⟩, ⟨default, ⟨2, 1⟩⟩)] 1 = some true := by
  have h3 := soft_characterization.2.2.1 1 (by omega)
  refine ⟨soft_characterization.1 [(⟨10, 3, 10, 0⟩, ⟨default, ⟨2, 1⟩⟩)] 1,
          soft_characterization.2.1 [(⟨10, 3, 10, 0⟩, ⟨default, ⟨2, 1⟩⟩)] 1 true h3,
          h3⟩

/-- `System<K>` (rsrc.rs): borrowed task slice, resource counter and one
request vector per task.  `α` is the per-slot storage (`Request` for the
mutex kind, `RwPair Request` for the read/write kind). -/
structure SystemG (α : Type) where
  tasks : List RTask
  num_rsrc : Nat
  reqs : List (List α)
  deriving DecidableEq

/-- `System::new(tasks)`: no resources, one empty vector per task. -/
def SystemG.new (α : Type) (tasks : List RTask) : SystemG α :=
  ⟨tasks, 0, List.replicate tasks.length []⟩

/-- The body of `System::add_rsrc` once the counter check has passed:
bump the counter and push one default slot onto every task's vector,
returning the old counter as the new resource's index. -/
def SystemG.addRsrcCore [Inhabited α] (s : SystemG α) : SystemG α × Nat :=
  (⟨s.tasks, s.num_rsrc + 1, s.reqs.map fun rs => rs ++ [default]⟩, s.num_rsrc)

/-- `System::add_rsrc`: `checked_add(1).unwrap()` panics — modelled as
`none` — exactly when the `usize` counter would overflow. -/
def SystemG.addRsrc [Inhabited α] (s : SystemG α) : Option (SystemG α × Nat) :=
  if s.num_rsrc + 1 < 2 ^ 64 then some s.addRsrcCore else none

/-- The merge performed by `add_req`/`add_read`/`add_write`: counts are
summed, lengths take the maximum. -/
def Request.merge (slot req : Request) : Request :=
  ⟨slot.num + req.num, max slot.length req.length⟩

/-- The slot of task `t` and resource `r` in a mutex system. -/
def SystemG.slot (s : SystemG Request) (t r : Nat) : Request :=
  (s.reqs.getD t []).getD r default

/-- The slot of task `t` and resource `r` in a read/write system. -/
def SystemG.slotRw (s : SystemG (RwPair Request)) (t r : Nat) : RwPair Request :=
  (s.reqs.getD t []).getD r default

/-- The body of `System::<Mutex>::add_req` after its index assertions:
merge `req` into the `(task, rsrc)` slot in place. -/
def SystemG.addReqCore (s : SystemG Request) (task rsrc : Nat) (req : Request) :
    SystemG Request :=
  ⟨s.tasks, s.num_rsrc,
   s.reqs.set task ((s.reqs.getD task []).set rsrc
     (Request.merge ((s.reqs.getD task []).getD rsrc default) req))⟩

/-- `System::<Mutex>::add_req` with its `assert!`s modelled as `none`. -/
def SystemG.addReq (s : SystemG Request) (task rsrc : Nat) (req : Request) :
    Option (SystemG Request) :=
  if task < s.tasks.length ∧ rsrc < s.num_rsrc then some (s.addReqCore task rsrc req)
  else none

/-- The body of `System::<Rw>::add_read` after its index assertions. -/
def SystemG.addReadCore (s : SystemG (RwPair Request)) (task rsrc : Nat) (req : Request) :
    SystemG (RwPair Request) :=
  ⟨s.tasks, s.num_rsrc,
   s.reqs.set task ((s.reqs.getD task []).set rsrc
     (let slot := (s.reqs.getD task []).getD rsrc default
      ⟨Request.merge slot.read req, slot.write⟩))⟩

/-- `System::<Rw>::add_read` with its `assert!`s modelled as `none`. -/
def SystemG.addRead (s : SystemG (RwPair Request)) (task rsrc : Nat) (req : Request) :
    Option (SystemG (RwPair Request)) :=
  if task < s.tasks.length ∧ rsrc < s.num_rsrc then some (s.addReadCore task rsrc req)
  else none

/-- The body of `System::<Rw>::add_write` after its index assertions. -/
def SystemG.addWriteCore (s : SystemG (RwPair Request)) (task rsrc : Nat) (req : Request) :
    SystemG (RwPair Request) :=
  ⟨s.tasks, s.num_rsrc,
   s.reqs.set task ((s.reqs.getD task []).set rsrc
     (let slot := (s.reqs.getD task []).getD rsrc default
      ⟨slot.read, Request.merge slot.write req⟩))⟩

/-- `System::<Rw>::add_write` with its `assert!`s modelled as `none`. -/
def SystemG.addWrite (s : SystemG (RwPair Request)) (task rsrc : Nat) (req : Request) :
    Option (SystemG (RwPair Request)) :=
  if task < s.tasks.length ∧ rsrc < s.num_rsrc then some (s.addWriteCore task rsrc req)
  else none

/-- The `System` shape invariant: one request vector per task and every
vector's length equal to the resource count. -/
def SysInv (s : SystemG α) : Prop :=
  s.reqs.length = s.tasks.length ∧ ∀ row ∈ s.reqs, row.length = s.num_rsrc

/-- C9: `new` establishes the shape invariant with zero resources and one
empty vector per task; `add_rsrc` increments the resource count, appends
exactly one default slot to every vector and returns the new index, failing
exactly when the `usize` counter would overflow; `add_req`, `add_read` and
`add_write` leave the resource count, the task slice and all vector lengths
unchanged while preserving the invariant — so the resource count never
decreases across operations. -/
theorem system_invariants :
    (∀ (α : Type) (tasks : List RTask),
      SysInv (SystemG.new α tasks) ∧ (SystemG.new α tasks).num_rsrc = 0 ∧
      (SystemG.new α tasks).reqs = List.replicate tasks.length []) ∧
    (∀ (α : Type) (inst : Inhabited α) (s s' : SystemG α) (i : Nat),
      SysInv s → s.addRsrc = some (s', i) →
      SysInv s' ∧ s'.num_rsrc = s.num_rsrc + 1 ∧ i = s.num_rsrc ∧
      s'.tasks = s.tasks ∧ s'.reqs = s.reqs.map fun row => row ++ [(default : α)]) ∧
    (∀ (α : Type) (inst : Inhabited α) (s : SystemG α),
      s.addRsrc = none ↔ 2 ^ 64 ≤ s.num_rsrc + 1) ∧
    (∀ (s s' : SystemG Request) (task rsrc : Nat) (req : Request),
      SysInv s → s.addReq task rsrc req = some s' →
      SysInv s' ∧ s'.num_rsrc = s.num_rsrc ∧ s'.tasks = s.tasks ∧
      s'.reqs.length = s.reqs.length) ∧
    (∀ (s s' : SystemG (RwPair Request)) (task rsrc : Nat) (req : Request),
      SysInv s → s.addRead task rsrc req = some s' →
      SysInv s' ∧ s'.num_rsrc = s.num_rsrc ∧ s'.tasks = s.tasks ∧
      s'.reqs.length = s.reqs.length) ∧
    (∀ (s s' : SystemG (RwPair Request)) (task rsrc : Nat) (req : Request),
      SysInv s → s.addWrite task rsrc req = some s' →
      SysInv s' ∧ s'.num_rsrc = s.num_rsrc ∧ s'.tasks = s.tasks ∧
      s'.reqs.length = s.reqs.length) := by
  have hset_inv : ∀ (β : Type) (tasks : List RTask) (n : Nat) (reqs : List (List β))
      (task : Nat) (newRow : List β), newRow.length = n →
      SysInv (⟨tasks, n, reqs⟩ : SystemG β) → SysInv (⟨tasks, n, reqs.set task newRow⟩ : SystemG β) := by
    intro β tasks n reqs task newRow hrowlen hI
    obtain ⟨h1, h2⟩ := hI
    refine ⟨by simpa using h1, ?_⟩
    intro row hrow
    rcases List.mem_or_eq_of_mem_set hrow with h | h
    · exact h2 row h
    · subst h; exact hrowlen
  have hrowlen_of_inv : ∀ (β : Type) (s : SystemG β) (task : Nat),
      SysInv s → task < s.tasks.length →
      (s.reqs.getD task []).length = s.num_rsrc := by
    intro β s task hI htask
    obtain ⟨h1, h2⟩ := hI
    have htask' : task < s.reqs.length := by omega
    refine h2 _ ?_
    rw [List.getD_eq_getElem _ _ htask']
    exact List.getElem_mem htask'
  refine ⟨?_, ?_, ?_, ?_, ?_, ?_⟩
  · intro α tasks
    refine ⟨⟨by simp [SystemG.new], ?_⟩, rfl, rfl⟩
    intro row hrow
    simp only [SystemG.new] at hrow ⊢
    rw [List.eq_of_mem_replicate hrow]
    rfl
  · intro α inst s s' i hinv hsome
    unfold SystemG.addRsrc at hsome
    by_cases h : s.num_rsrc + 1 < 2 ^ 64
    · rw [if_pos h] at hsome
      have heq := Option.some.inj hsome
      have hs : s' = s.addRsrcCore.1 := by rw [heq]
      have hi : i = s.addRsrcCore.2 := by rw [heq]
      subst hs; subst hi
      obtain ⟨h1, h2⟩ := hinv
      refine ⟨⟨by simpa [SystemG.addRsrcCore] using h1, ?_⟩, rfl, rfl, rfl, rfl⟩
      intro row hrow
      simp only [SystemG.addRsrcCore, List.mem_map] at hrow
      obtain ⟨row0, hrow0, heq0⟩ := hrow
      subst heq0
      simp [SystemG.addRsrcCore, h2 row0 hrow0]
    · rw [if_neg h] at hsome; cases hsome
  · intro α inst s
    unfold SystemG.addRsrc
    by_cases h : s.num_rsrc + 1 < 2 ^ 64
    · rw [if_pos h]
      constructor
      · intro hc; cases hc
      · intro hge; omega
    · rw [if_neg h]
      constructor
      · intro _; omega
      · intro _; rfl
  · intro s s' task rsrc req hinv hsome
    unfold SystemG.addReq at hsome
    by_cases h : task < s.tasks.length ∧ rsrc < s.num_rsrc
    · rw [if_pos h] at hsome
      cases hsome
      have hrowlen := hrowlen_of_inv Request s task hinv h.1
      refine ⟨?_, rfl, rfl, by simp [SystemG.addReqCore]⟩
      refine hset_inv Request s.tasks s.num_rsrc s.reqs task _ ?_ hinv
      rw [List.length_set]
      exact hrowlen
    · rw [if_neg h] at hsome; cases hsome
  · intro s s' task rsrc req hinv hsome
    unfold SystemG.addRead at hsome
    by_cases h : task < s.tasks.length ∧ rsrc < s.num_rsrc
    · rw [if_pos h] at hsome
      cases hsome
      have hrowlen := hrowlen_of_inv (RwPair Request) s task hinv h.1
      refine ⟨?_, rfl, rfl, by simp [SystemG.addReadCore]⟩
      refine hset_inv (RwPair Request) s.tasks s.num_rsrc s.reqs task _ ?_ hinv
      rw [List.length_set]
      exact hrowlen
    · rw [if_neg h] at hsome; cases hsome
  · intro s s' task rsrc req hinv hsome
    unfold SystemG.addWrite at hsome
    by_cases h : task < s.tasks.length ∧ rsrc < s.num_rsrc
    · rw [if_pos h] at hsome
      cases hsome
      have hrowlen := hrowlen_of_inv (RwPair Request) s task hinv h.1
      refine ⟨?_, rfl, rfl, by simp [SystemG.addWriteCore]⟩
      refine hset_inv (RwPair Request) s.tasks s.num_rsrc s.reqs task _ ?_ hinv
      rw [List.length_set]
      exact hrowlen
    · rw [if_neg h] at hsome; cases hsome

/-- Witness for C9: the operation contracts applied along a concrete
construction sequence (new, add_rsrc, add_req on the mutex side; add_read
and add_write on the read/write side). -/
theorem system_invariants_witness :
    SysInv ((⟨[⟨10, 3, 10, 0⟩], 1, [[(⟨0, 0⟩ : Request)]]⟩ : SystemG Request)) ∧
    SysInv ((⟨[⟨10, 3, 10, 0⟩], 1, [[(⟨2, 7⟩ : Request)]]⟩ : SystemG Request)) ∧
    SysInv ((⟨[⟨10, 3, 10, 0⟩], 1,
      [[(⟨⟨1, 5⟩, ⟨0, 0⟩⟩ : RwPair Request)]]⟩ : SystemG (RwPair Request))) ∧
    SysInv ((⟨[⟨10, 3, 10, 0⟩], 1,
      [[(⟨⟨1, 5⟩, ⟨1, 6⟩⟩ : RwPair Request)]]⟩ : SystemG (RwPair Request))) := by
  have hm1 : SysInv ((⟨[⟨10, 3, 10, 0⟩], 1, [[(⟨0, 0⟩ : Request)]]⟩ : SystemG Request)) :=
    (system_invariants.2.1 Request inferInstance (SystemG.new Request [⟨10, 3, 10, 0⟩])
      ⟨[⟨10, 3, 10, 0⟩], 1, [[⟨0, 0⟩]]⟩ 0
      (system_invariants.1 Request [⟨10, 3, 10, 0⟩]).1 (by decide)).1
  have hm2 : SysInv ((⟨[⟨10, 3, 10, 0⟩], 1, [[(⟨2, 7⟩ : Request)]]⟩ : SystemG Request)) :=
    (system_invariants.2.2.2.1 ⟨[⟨10, 3, 10, 0⟩], 1, [[⟨0, 0⟩]]⟩
      ⟨[⟨10, 3, 10, 0⟩], 1, [[⟨2, 7⟩]]⟩ 0 0 ⟨2, 7⟩ hm1 (by decide)).1
  have hr0 : SysInv ((⟨[⟨10, 3, 10, 0⟩], 1,
      [[(⟨⟨0, 0⟩, ⟨0, 0⟩⟩ : RwPair Request)]]⟩ : SystemG (RwPair Request))) :=
    (system_invariants.2.1 (RwPair Request) inferInstance
      (SystemG.new (RwPair Request) [⟨10, 3, 10, 0⟩])
      ⟨[⟨10, 3, 10, 0⟩], 1, [[⟨⟨0, 0⟩, ⟨0, 0⟩⟩]]⟩ 0
      (system_invariants.1 (RwPair Request) [⟨10, 3, 10, 0⟩]).1 (by decide)).1
  have hr1 : SysInv ((⟨[⟨10, 3, 10, 0⟩], 1,
      [[(⟨⟨1, 5⟩, ⟨0, 0⟩⟩ : RwPair Request)]]⟩ : SystemG (RwPair Request))) :=
    (system_invariants.2.2.2.2.1 ⟨[⟨10, 3, 10, 0⟩], 1, [[⟨⟨0, 0⟩, ⟨0, 0⟩⟩]]⟩
      ⟨[⟨10, 3, 10, 0⟩], 1, [[⟨⟨1, 5⟩, ⟨0, 0⟩⟩]]⟩ 0 0 ⟨1, 5⟩ hr0 (by decide)).1
  have hr2 : SysInv ((⟨[⟨10, 3, 10, 0⟩], 1,
      [[(⟨⟨1, 5⟩, ⟨1, 6⟩⟩ : RwPair Request)]]⟩ : SystemG (RwPair Request))) :=
    (system_invariants.2.2.2.2.2 ⟨[⟨10, 3, 10, 0⟩], 1, [[⟨⟨1, 5⟩, ⟨0, 0⟩⟩]]⟩
      ⟨[⟨10, 3, 10, 0⟩], 1, [[⟨⟨1, 5⟩, ⟨1, 6⟩⟩]]⟩ 0 0 ⟨1, 6⟩ hr1 (by decide)).1
  exact ⟨hm1, hm2, hr1, hr2⟩

theorem getD_set_self (l : List β) (i : Nat) (a d : β) (h : i < l.length) :
    (l.set i a).getD i d = a := by
  rw [List.getD_eq_getElem?_getD, List.getElem?_set_eq_of_lt a h]
  rfl

theorem getD_set_ne (l : List β) {i j : Nat} (a d : β) (h : i ≠ j) :
    (l.set i a).getD j d = l.getD j d := by
  rw [List.getD_eq_getElem?_getD, List.getElem?_set_ne h, ← List.getD_eq_getElem?_getD]

theorem getD_replicate (n i : Nat) (a d : β) (h : i < n) :
    (List.replicate n a).getD i d = a := by
  rw [List.getD_eq_getElem?_getD, List.getElem?_replicate]
  simp [h]

/-- The `for _ in 0 .. self.num_rsrc` loop of `as_mutex`: `add_rsrc`
iterated, dropping the returned indices.  The counter check never fires
here because the source counter already fits in a `usize`. -/
def addRsrcN : Nat → SystemG Request → SystemG Request
  | 0, s => s
  | n + 1, s => addRsrcN n s.addRsrcCore.1

/-- The inner loop of `as_mutex` for one task `t`: merge the read and then
the write sub-request of every `(rsrc, pair)` entry into the mutex system. -/
def rwFoldTask (t : Nat) (l : List (Nat × RwPair Request)) (o : SystemG Request) :
    SystemG Request :=
  l.foldl (fun o2 q => (o2.addReqCore t q.1 q.2.read).addReqCore t q.1 q.2.write) o

/-- The outer loop of `as_mutex` over `(task, row)` entries. -/
def rwFold (l : List (Nat × List (RwPair Request))) (o : SystemG Request) :
    SystemG Request :=
  l.foldl (fun o p => rwFoldTask p.1 p.2.enum o) o

/-- `System::<Rw>::as_mutex` (rsrc.rs, lines 285-300): allocate the same
number of resources over the same task slice, then `add_req` every read and
every write sub-request as an independent mutex merge. -/
def SystemG.asMutex (s : SystemG (RwPair Request)) : SystemG Request :=
  rwFold s.reqs.enum (addRsrcN s.num_rsrc (SystemG.new Request s.tasks))

theorem addRsrcN_spec : ∀ (n : Nat) (s : SystemG Request),
    addRsrcN n s =
      ⟨s.tasks, s.num_rsrc + n, s.reqs.map fun row => row ++ List.replicate n default⟩ := by
  intro n
  induction n with
  | zero => intro s; simp [addRsrcN]
  | succ n ih =>
    intro s
    show addRsrcN n s.addRsrcCore.1 = _
    rw [ih]
    simp only [SystemG.addRsrcCore]
    rw [List.map_map]
    have hnum : s.num_rsrc + 1 + n = s.num_rsrc + (n + 1) := by omega
    rw [hnum]
    congr 1
    apply List.map_congr_left
    intro row _
    simp only [Function.comp_apply]
    rw [List.append_assoc]
    rfl

/-- The fixed-shape invariant threaded through the `as_mutex` folds:
`N` request vectors, each of length `M`. -/
def Shape (o : SystemG Request) (N M : Nat) : Prop :=
  o.reqs.length = N ∧ ∀ row ∈ o.reqs, row.length = M

theorem addReqCore_shape (o : SystemG Request) (task rsrc : Nat) (req : Request)
    (N M : Nat) (h : Shape o N M) : Shape (o.addReqCore task rsrc req) N M := by
  obtain ⟨h1, h2⟩ := h
  refine ⟨by simpa [SystemG.addReqCore] using h1, ?_⟩
  intro row hrow
  simp only [SystemG.addReqCore] at hrow
  by_cases htask : task < o.reqs.length
  · rcases List.mem_or_eq_of_mem_set hrow with hmem | heq
    · exact h2 row hmem
    · subst heq
      rw [List.length_set]
      refine h2 _ ?_
      rw [List.getD_eq_getElem _ _ htask]
      exact List.getElem_mem htask
  · rw [List.set_eq_of_length_le (by omega)] at hrow
    exact h2 row hrow

@[simp] theorem addReqCore_tasks (o : SystemG Request) (task rsrc : Nat) (req : Request) :
    (o.addReqCore task rsrc req).tasks = o.tasks := rfl

@[simp] theorem addReqCore_num_rsrc (o : SystemG Request) (task rsrc : Nat) (req : Request) :
    (o.addReqCore task rsrc req).num_rsrc = o.num_rsrc := rfl

theorem addReqCore_slot_same (o : SystemG Request) (task rsrc : Nat) (req : Request)
    (h1 : task < o.reqs.length) (h2 : rsrc < (o.reqs.getD task []).length) :
    (o.addReqCore task rsrc req).slot task rsrc = Request.merge (o.slot task rsrc) req := by
  unfold SystemG.slot SystemG.addReqCore
  rw [getD_set_self _ _ _ _ (by simpa using h1), getD_set_self _ _ _ _ h2]

theorem addReqCore_slot_ne_task (o : SystemG Request) (task rsrc : Nat) (req : Request)
    {t' r' : Nat} (h : t' ≠ task) :
    (o.addReqCore task rsrc req).slot t' r' = o.slot t' r' := by
  unfold SystemG.slot SystemG.addReqCore
  rw [getD_set_ne _ _ _ (fun he => h he.symm)]

theorem addReqCore_slot_ne_rsrc (o : SystemG Request) (task rsrc : Nat) (req : Request)
    {r' : Nat} (h : r' ≠ rsrc) :
    (o.addReqCore task rsrc req).slot task r' = o.slot task r' := by
  unfold SystemG.slot SystemG.addReqCore
  by_cases htask : task < o.reqs.length
  · rw [getD_set_self _ _ _ _ (by simpa using htask),
      getD_set_ne _ _ _ (fun he => h he.symm)]
  · rw [List.set_eq_of_length_le (by omega)]

/-- One inner `as_mutex` step: merging first the read and then the write
sub-request into mutex slot `(t, k)`. -/
theorem addReqCore2_slot (o : SystemG Request) (t k : Nat) (pr : RwPair Request)
    (h1 : t < o.reqs.length) (h2 : k < (o.reqs.getD t []).length)
    (hsh : Shape o o.reqs.length ((o.reqs.getD t []).length)) :
    ((o.addReqCore t k pr.read).addReqCore t k pr.write).slot t k =
      Request.merge (Request.merge (o.slot t k) pr.read) pr.write := by
  have hfirst := addReqCore_slot_same o t k pr.read h1 h2
  have hsh1 := addReqCore_shape o t k pr.read _ _ hsh
  have h1' : t < (o.addReqCore t k pr.read).reqs.length := by
    simpa [SystemG.addReqCore] using h1
  have h2' : k < ((o.addReqCore t k pr.read).reqs.getD t []).length := by
    obtain ⟨hl, hrows⟩ := hsh1
    have : ((o.addReqCore t k pr.read).reqs.getD t []).length
        = (o.reqs.getD t []).length := by
      refine hrows _ ?_
      rw [List.getD_eq_getElem _ _ (by omega)]
      exact List.getElem_mem (by omega)
    omega
  rw [addReqCore_slot_same _ t k pr.write h1' h2', hfirst]

theorem shape_rowlen (o : SystemG Request) (N M : Nat) (h : Shape o N M)
    (t : Nat) (ht : t < N) : (o.reqs.getD t []).length = M := by
  obtain ⟨h1, h2⟩ := h
  refine h2 _ ?_
  rw [List.getD_eq_getElem _ _ (by omega)]
  exact List.getElem_mem (by omega)

/-- Behaviour of the inner `as_mutex` loop over `enumFrom k row`: shape,
tasks and resource count are preserved; slots of other tasks and resource
indices below `k` are untouched; the slot at `(t, k + j)` receives the
read-then-write merge of `row`'s `j`-th pair. -/
theorem rwFoldTask_spec (t N M : Nat) (row : List (RwPair Request)) :
    ∀ (k : Nat) (o : SystemG Request), Shape o N M → t < N → k + row.length ≤ M →
    Shape (rwFoldTask t (List.enumFrom k row) o) N M ∧
    (rwFoldTask t (List.enumFrom k row) o).tasks = o.tasks ∧
    (rwFoldTask t (List.enumFrom k row) o).num_rsrc = o.num_rsrc ∧
    (∀ t' r', t' ≠ t → (rwFoldTask t (List.enumFrom k row) o).slot t' r' = o.slot t' r') ∧
    (∀ r', r' < k → (rwFoldTask t (List.enumFrom k row) o).slot t r' = o.slot t r') ∧
    (∀ j, ∀ hj : j < row.length, (rwFoldTask t (List.enumFrom k row) o).slot t (k + j) =
      Request.merge (Request.merge (o.slot t (k + j)) (row.get ⟨j, hj⟩).read)
        (row.get ⟨j, hj⟩).write) := by
  induction row with
  | nil =>
    intro k o hsh ht _
    exact ⟨hsh, rfl, rfl, fun _ _ _ => rfl, fun _ _ => rfl,
      fun j hj => absurd hj (Nat.not_lt_zero j)⟩
  | cons pr rest ih =>
    intro k o hsh ht hk
    have hstep : rwFoldTask t (List.enumFrom k (pr :: rest)) o
        = rwFoldTask t (List.enumFrom (k + 1) rest)
            ((o.addReqCore t k pr.read).addReqCore t k pr.write) := rfl
    set o1 := (o.addReqCore t k pr.read).addReqCore t k pr.write with ho1
    have hsh1 : Shape o1 N M :=
      addReqCore_shape _ t k pr.write N M (addReqCore_shape o t k pr.read N M hsh)
    have ht1 : t < o.reqs.length := by obtain ⟨h1, _⟩ := hsh; omega
    have hrow : (o.reqs.getD t []).length = M := shape_rowlen o N M hsh t ht
    have hlen : (pr :: rest).length = rest.length + 1 := rfl
    have hkM : k < M := by omega
    have hsh' : Shape o o.reqs.length ((o.reqs.getD t []).length) := by
      rw [hsh.1, hrow]; exact hsh
    have hslot_same : o1.slot t k
        = Request.merge (Request.merge (o.slot t k) pr.read) pr.write :=
      addReqCore2_slot o t k pr ht1 (by omega) hsh'
    have hslot_ne : ∀ t' r', t' ≠ t → o1.slot t' r' = o.slot t' r' := by
      intro t' r' h
      rw [ho1, addReqCore_slot_ne_task _ _ _ _ h, addReqCore_slot_ne_task _ _ _ _ h]
    have hslot_ner : ∀ r', r' ≠ k → o1.slot t r' = o.slot t r' := by
      intro r' h
      rw [ho1, addReqCore_slot_ne_rsrc _ _ _ _ h, addReqCore_slot_ne_rsrc _ _ _ _ h]
    obtain ⟨ihs, ihtasks, ihn, ihne, ihlt, ihj⟩ := ih (k + 1) o1 hsh1 ht (by omega)
    rw [hstep]
    refine ⟨ihs, ihtasks, ihn, ?_, ?_, ?_⟩
    · intro t' r' h
      exact (ihne t' r' h).trans (hslot_ne t' r' h)
    · intro r' hr
      exact (ihlt r' (by omega)).trans (hslot_ner r' (by omega))
    · intro j hj
      cases j with
      | zero =>
        exact (ihlt k (by omega)).trans hslot_same
      | succ j' =>
        have hj' : j' < rest.length := by
          rw [hlen] at hj; omega
        have harith : k + (j' + 1) = (k + 1) + j' := by omega
        rw [harith, ihj j' hj', hslot_ner _ (by omega)]
        rfl

/-- Behaviour of the outer `as_mutex` loop over `enumFrom k rows`: shape,
tasks and resource count are preserved; slots of tasks below `k` are
untouched; the slot at `(k + j, r)` receives the read-then-write merge of
`rows`'s entry. -/
theorem rwFold_spec (N M : Nat) (rows : List (List (RwPair Request))) :
    ∀ (k : Nat) (o : SystemG Request), Shape o N M → k + rows.length ≤ N →
    (∀ row' ∈ rows, row'.length ≤ M) →
    Shape (rwFold (List.enumFrom k rows) o) N M ∧
    (rwFold (List.enumFrom k rows) o).tasks = o.tasks ∧
    (rwFold (List.enumFrom k rows) o).num_rsrc = o.num_rsrc ∧
    (∀ t' r', t' < k → (rwFold (List.enumFrom k rows) o).slot t' r' = o.slot t' r') ∧
    (∀ j, ∀ hj : j < rows.length, ∀ r', ∀ hr : r' < (rows.get ⟨j, hj⟩).length,
      (rwFold (List.enumFrom k rows) o).slot (k + j) r' =
        Request.merge (Request.merge (o.slot (k + j) r')
          ((rows.get ⟨j, hj⟩).get ⟨r', hr⟩).read)
          ((rows.get ⟨j, hj⟩).get ⟨r', hr⟩).write) := by
  induction rows with
  | nil =>
    intro k o hsh _ _
    exact ⟨hsh, rfl, rfl, fun _ _ _ => rfl, fun j hj => absurd hj (Nat.not_lt_zero j)⟩
  | cons row rest ih =>
    intro k o hsh hk hrows
    have hstep : rwFold (List.enumFrom k (row :: rest)) o
        = rwFold (List.enumFrom (k + 1) rest) (rwFoldTask k row.enum o) := rfl
    have hkN : k < N := by
      have : (row :: rest).length = rest.length + 1 := rfl
      omega
    have hrowM : row.length ≤ M := hrows row (List.mem_cons_self row rest)
    obtain ⟨insh, intasks, innum, inne, _, inj⟩ :=
      rwFoldTask_spec k N M row 0 o hsh hkN (by omega)
    set o1 := rwFoldTask k row.enum o with ho1
    have ho1enum : rwFoldTask k (List.enumFrom 0 row) o = o1 := rfl
    rw [ho1enum] at insh intasks innum inne inj
    have hrest : ∀ row' ∈ rest, row'.length ≤ M :=
      fun row' h => hrows row' (List.mem_cons_of_mem row h)
    obtain ⟨ihs, ihtasks, ihn, ihlt, ihj⟩ := ih (k + 1) o1 insh (by
      have : (row :: rest).length = rest.length + 1 := rfl
      omega) hrest
    rw [hstep]
    refine ⟨ihs, ihtasks.trans intasks, ihn.trans innum, ?_, ?_⟩
    · intro t' r' ht'
      exact (ihlt t' r' (by omega)).trans (inne t' r' (by omega))
    · intro j hj r' hr
      cases j with
      | zero =>
        have h0 : (rwFold (List.enumFrom (k + 1) rest) o1).slot (k + 0) r'
            = o1.slot (k + 0) r' := ihlt (k + 0) r' (by omega)
        rw [h0]
        have := inj r' (by simpa using hr)
        rw [Nat.zero_add] at this
        have hk0 : k + 0 = k := rfl
        rw [hk0, this]
        rfl
      | succ j' =>
        have hj' : j' < rest.length := by
          have : (row :: rest).length = rest.length + 1 := rfl
          omega
        have harith : k + (j' + 1) = (k + 1) + j' := by omega
        rw [harith, ihj j' hj' r' (by exact hr), inne _ _ (by omega)]
        rfl

@[simp] theorem Request.default_num : (default : Request).num = 0 := rfl

@[simp] theorem Request.default_length : (default : Request).length = 0 := rfl

/-- C2 (amended): `as_mutex` returns a mutex system over the same task
slice and the same number of resources, and for every task and resource in
range the single mutex slot merges the read and write sub-requests: its
count is the read count plus the write count, and its length is the
maximum of the read and write lengths (not one independent entry per
sub-request). -/
theorem as_mutex_merges (s : SystemG (RwPair Request)) (hinv : SysInv s) :
    s.asMutex.tasks = s.tasks ∧ s.asMutex.num_rsrc = s.num_rsrc ∧
    ∀ t r, t < s.tasks.length → r < s.num_rsrc →
      s.asMutex.slot t r =
        ⟨(s.slotRw t r).read.num + (s.slotRw t r).write.num,
         max (s.slotRw t r).read.length (s.slotRw t r).write.length⟩ := by
  obtain ⟨h1, h2⟩ := hinv
  have hbase : addRsrcN s.num_rsrc (SystemG.new Request s.tasks)
      = ⟨s.tasks, s.num_rsrc,
         List.replicate s.tasks.length (List.replicate s.num_rsrc default)⟩ := by
    rw [addRsrcN_spec]
    simp [SystemG.new, List.map_replicate]
  have hshape : Shape (addRsrcN s.num_rsrc (SystemG.new Request s.tasks))
      s.tasks.length s.num_rsrc := by
    rw [hbase]
    refine ⟨by simp, ?_⟩
    intro row hrow
    rw [List.eq_of_mem_replicate hrow]
    simp
  have hbase_slot : ∀ t r, t < s.tasks.length → r < s.num_rsrc →
      (addRsrcN s.num_rsrc (SystemG.new Request s.tasks)).slot t r = default := by
    intro t r ht hr
    rw [hbase]
    unfold SystemG.slot
    rw [getD_replicate _ _ _ _ ht, getD_replicate _ _ _ _ hr]
  have hrows : ∀ row' ∈ s.reqs, row'.length ≤ s.num_rsrc :=
    fun row' h => le_of_eq (h2 row' h)
  obtain ⟨_, htasks, hnum, _, hj⟩ :=
    rwFold_spec s.tasks.length s.num_rsrc s.reqs 0
      (addRsrcN s.num_rsrc (SystemG.new Request s.tasks)) hshape (by omega) hrows
  have hfold : s.asMutex
      = rwFold (List.enumFrom 0 s.reqs) (addRsrcN s.num_rsrc (SystemG.new Request s.tasks)) :=
    rfl
  refine ⟨by rw [hfold, htasks, hbase], by rw [hfold, hnum, hbase], ?_⟩
  intro t r ht hr
  have ht' : t < s.reqs.length := by omega
  have hrowlen : (s.reqs.get ⟨t, ht'⟩).length = s.num_rsrc :=
    h2 _ (List.get_mem s.reqs t ht')
  have hr' : r < (s.reqs.get ⟨t, ht'⟩).length := by omega
  have := hj t ht' r hr'
  rw [Nat.zero_add] at this
  rw [hfold, this, hbase_slot t r ht hr]
  have hslotRw : s.slotRw t r = (s.reqs.get ⟨t, ht'⟩).get ⟨r, hr'⟩ := by
    unfold SystemG.slotRw
    rw [List.getD_eq_getElem _ _ ht']
    show (s.reqs.get ⟨t, ht'⟩).getD r default = _
    rw [List.getD_eq_getElem _ _ hr']
    rfl
  rw [hslotRw]
  simp [Request.merge]

/-- C2 counterexample: for a read of length 5 and a write of length 10 on
one resource, `as_mutex` produces the single merged slot `(num 2, length
10)`; there is no mutex entry whose length equals the read sub-request's
own length 5. -/
theorem as_mutex_counterexample :
    (SystemG.asMutex ⟨[⟨10, 3, 10, 0⟩], 1, [[⟨⟨1, 5⟩, ⟨1, 10⟩⟩]]⟩).reqs = [[⟨2, 10⟩]] ∧
    ((SystemG.asMutex ⟨[⟨10, 3, 10, 0⟩], 1, [[⟨⟨1, 5⟩, ⟨1, 10⟩⟩]]⟩).slot 0 0).length ≠ 5 := by
  decide

/-- Witness for C2's amended claim at the counterexample system. -/
theorem as_mutex_merges_witness :
    SysInv (⟨[⟨10, 3, 10, 0⟩], 1, [[⟨⟨1, 5⟩, ⟨1, 10⟩⟩]]⟩ : SystemG (RwPair Request)) ∧
    (SystemG.asMutex ⟨[⟨10, 3, 10, 0⟩], 1, [[⟨⟨1, 5⟩, ⟨1, 10⟩⟩]]⟩).slot 0 0 =
      ⟨((⟨[⟨10, 3, 10, 0⟩], 1, [[⟨⟨1, 5⟩, ⟨1, 10⟩⟩]]⟩ : SystemG (RwPair Request)).slotRw 0 0).read.num +
        ((⟨[⟨10, 3, 10, 0⟩], 1, [[⟨⟨1, 5⟩, ⟨1, 10⟩⟩]]⟩ : SystemG (RwPair Request)).slotRw 0 0).write.num,
       max ((⟨[⟨10, 3, 10, 0⟩], 1, [[⟨⟨1, 5⟩, ⟨1, 10⟩⟩]]⟩ : SystemG (RwPair Request)).slotRw 0 0).read.length
        ((⟨[⟨10, 3, 10, 0⟩], 1, [[⟨⟨1, 5⟩, ⟨1, 10⟩⟩]]⟩ : SystemG (RwPair Request)).slotRw 0 0).write.length⟩ := by
  have hinvc : SysInv (⟨[⟨10, 3, 10, 0⟩], 1, [[⟨⟨1, 5⟩, ⟨1, 10⟩⟩]]⟩ : SystemG (RwPair Request)) := by
    refine ⟨rfl, ?_⟩
    intro row hrow
    rw [List.mem_singleton] at hrow
    subst hrow
    rfl
  exact ⟨hinvc,
    (as_mutex_merges ⟨[⟨10, 3, 10, 0⟩], 1, [[⟨⟨1, 5⟩, ⟨1, 10⟩⟩]]⟩ hinvc).2.2 0 0
      (by decide) (by decide)⟩
